import Mathlib

/-!
Shallow embedding of the spatial-navigation core of the nesttour virtual-tour
front end (PanoramaViewer, PanoramaHotspotManager, coordinate conversion and
camera-catalog parsing).  JavaScript floating-point numbers are idealised as
exact rationals (`ℚ`) where the code only adds, multiplies, divides, compares,
clamps and sorts, and as reals (`ℝ`) where square roots or inverse
trigonometry appear.  Non-finite JS numbers (NaN / Infinity) are modelled as
`none` in `Option ℚ` at the one place the code tests `isFinite`.
-/

/-- View angle state `{lon, lat}` in degrees, as used throughout
`PanoramaViewer` (`viewAngleRef`). -/
structure ViewAngle where
  lon : ℚ
  lat : ℚ
deriving DecidableEq, Repr

/-- Result record of `getShortestRotationPath`. -/
structure RotationPath where
  lonDiff : ℚ
  latDiff : ℚ
  targetLon : ℚ
  targetLat : ℚ
deriving DecidableEq, Repr

/-- Embedding of `getShortestRotationPath` (PanoramaViewer): takes the raw
yaw/pitch difference and applies a single plus-or-minus 360 correction to the yaw
difference when it leaves (-180, 180]. -/
def getShortestRotationPath (startAngle targetAngle : ViewAngle) : RotationPath :=
  let lonDiff0 := targetAngle.lon - startAngle.lon
  let latDiff := targetAngle.lat - startAngle.lat
  let lonDiff :=
    if lonDiff0 > 180 then lonDiff0 - 360
    else if lonDiff0 < -180 then lonDiff0 + 360
    else lonDiff0
  { lonDiff := lonDiff
    latDiff := latDiff
    targetLon := startAngle.lon + lonDiff
    targetLat := startAngle.lat + latDiff }

/-- Embedding of `calculateZoomFov` (PanoramaViewer): maps a hotspot distance
to the zoom-in target field of view.  Constants as in the source:
`normalFov = 75`, `minZoomAmount = 8`, `maxZoomAmount = 25`,
`maxDistance = 5.0`. -/
def calculateZoomFov (distance : ℚ) : ℚ :=
  let normalFov : ℚ := 75
  let minZoomAmount : ℚ := 8
  let maxZoomAmount : ℚ := 25
  let maxDistance : ℚ := 5
  let normalizedDistance := min (distance / maxDistance) 1
  let zoomAmount := maxZoomAmount - (maxZoomAmount - minZoomAmount) * normalizedDistance
  normalFov - zoomAmount

/-- Embedding of the JavaScript expression `distance || 3.0` in
`handleHotspotClick`: an absent (`undefined`) distance and a distance of
exactly `0` are both falsy and fall back to the default `3.0`. -/
def clickDistanceOrDefault (distance : Option ℚ) : ℚ :=
  match distance with
  | none => 3
  | some d => if d = 0 then 3 else d

/-- Zoom target field of view computed by `handleHotspotClick` from the
optional hotspot distance. -/
def clickZoomFov (distance : Option ℚ) : ℚ :=
  calculateZoomFov (clickDistanceOrDefault distance)

/-- Embedding of the symmetric zoom-out start value computed in
`handleHotspotClick`: `zoomAmount = normalFov - zoomFov`, then
`symmetricZoomOutFov = normalFov + zoomAmount`. -/
def symmetricZoomOutFov (zoomFov : ℚ) : ℚ :=
  let normalFov : ℚ := 75
  let zoomAmount := normalFov - zoomFov
  normalFov + zoomAmount

/-- Embedding of one pointer-drag update in `onMouseMove` (PanoramaViewer):
`newLon = lon - deltaX * 0.2` and
`newLat = max(-85, min(85, lat + deltaY * 0.2))`. -/
def onMouseMoveUpdate (a : ViewAngle) (deltaX deltaY : ℚ) : ViewAngle :=
  { lon := a.lon - deltaX * (1/5)
    lat := max (-85) (min 85 (a.lat + deltaY * (1/5))) }

/-- A sequence of pointer-drag updates folded over the view-angle state. -/
def runMouseMoves (a : ViewAngle) (deltas : List (ℚ × ℚ)) : ViewAngle :=
  deltas.foldl (fun s d => onMouseMoveUpdate s d.1 d.2) a

/-- Render-space position vector with exact rational components. -/
structure Vec3Q where
  x : ℚ
  y : ℚ
  z : ℚ
deriving DecidableEq, Repr

/-- Camera catalog entry as consumed by `PanoramaHotspotManager`
(`CameraData`): only the fields the neighbor selection reads — the logical
`id` and the render-space `position` — are modelled; `label`, `rotation`,
`transform` and `imageUrl` play no role in the claims about selection. -/
structure CameraPose where
  id : ℕ
  pos : Vec3Q
deriving DecidableEq, Repr

/-- Squared Euclidean distance between two positions.  The source computes
`currentCamera.position.distanceTo(cam.position)`, the square root of this
value; since the square root is strictly monotone on non-negative reals,
comparing and sorting by `distanceTo` is the same as by the square. -/
def distSq (a b : Vec3Q) : ℚ :=
  (b.x - a.x) ^ 2 + (b.y - a.y) ^ 2 + (b.z - a.z) ^ 2

/-- Pairs each list element with its arrival index, starting at `n`. -/
def withIndexFrom (n : ℕ) : List α → List (ℕ × α)
  | [] => []
  | a :: l => (n, a) :: withIndexFrom (n + 1) l

/-- Sort key order used to model the JavaScript stable sort
`.sort((a, b) => a.distance - b.distance)`: a stable sort by distance is
extensionally the sort by the lexicographic key (distance, arrival index). -/
def hotLe (a b : ℕ × CameraPose × ℚ) : Prop :=
  a.2.2 < b.2.2 ∨ (a.2.2 = b.2.2 ∧ a.1 ≤ b.1)

instance instDecidableHotLe (a b : ℕ × CameraPose × ℚ) : Decidable (hotLe a b) := by
  unfold hotLe
  exact inferInstance

/-- Insertion step of the sort model. -/
def insertHot (x : ℕ × CameraPose × ℚ) : List (ℕ × CameraPose × ℚ) → List (ℕ × CameraPose × ℚ)
  | [] => [x]
  | y :: ys => if hotLe y x then y :: insertHot x ys else x :: y :: ys

/-- Insertion sort by the lexicographic (distance, arrival index) key. -/
def sortHot : List (ℕ × CameraPose × ℚ) → List (ℕ × CameraPose × ℚ)
  | [] => []
  | y :: ys => insertHot y (sortHot ys)

/-- Candidate list built by `updateHotspots`: all cameras except the current
id, each paired with its distance to the current camera, annotated here with
its arrival index to express the stable sort. -/
def neighborCandidates (cur : CameraPose) (cams : List CameraPose) :
    List (ℕ × CameraPose × ℚ) :=
  withIndexFrom 0
    ((cams.filter fun c => c.id ≠ cur.id).map fun c => (c, distSq cur.pos c.pos))

/-- The distance-sorted candidate list of `updateHotspots` (before `slice`). -/
def updateHotspotsOrdered (cur : CameraPose) (cams : List CameraPose) :
    List (ℕ × CameraPose × ℚ) :=
  sortHot (neighborCandidates cur cams)

/-- Embedding of the selection in `PanoramaHotspotManager.updateHotspots`:
filter out the current id, pair with distances, stable-sort ascending by
distance, then `slice(0, maxCount)`. -/
def updateHotspotsSelected (cur : CameraPose) (cams : List CameraPose)
    (maxCount : ℕ) : List (CameraPose × ℚ) :=
  ((updateHotspotsOrdered cur cams).take maxCount).map fun e => e.2

/-- Membership after insertion. -/
theorem mem_insertHot {a x : ℕ × CameraPose × ℚ} {l : List (ℕ × CameraPose × ℚ)}
    (h : a ∈ insertHot x l) : a = x ∨ a ∈ l := by
  induction l with
  | nil => simpa [insertHot] using h
  | cons y ys ih =>
    by_cases hc : hotLe y x
    · simp only [insertHot, if_pos hc, List.mem_cons] at h
      rcases h with rfl | h
      · exact Or.inr (List.mem_cons_self _ _)
      · rcases ih h with h | h
        · exact Or.inl h
        · exact Or.inr (List.mem_cons_of_mem _ h)
    · simp only [insertHot, if_neg hc, List.mem_cons] at h
      rcases h with rfl | rfl | h
      · exact Or.inl rfl
      · exact Or.inr (List.mem_cons_self _ _)
      · exact Or.inr (List.mem_cons_of_mem _ h)

/-- Inserting is a permutation of consing. -/
theorem insertHot_perm (x : ℕ × CameraPose × ℚ) (l : List (ℕ × CameraPose × ℚ)) :
    List.Perm (insertHot x l) (x :: l) := by
  induction l with
  | nil => simp [insertHot]
  | cons y ys ih =>
    by_cases hc : hotLe y x
    · simp only [insertHot, if_pos hc]
      exact (ih.cons y).trans (List.Perm.swap x y ys)
    · simp [insertHot, if_neg hc]

/-- Elements of an index-annotated list come from the underlying list. -/
theorem snd_mem_of_mem_withIndexFrom {α : Type} {p : ℕ × α} :
    ∀ {n : ℕ} {l : List α}, p ∈ withIndexFrom n l → p.2 ∈ l := by
  intro n l
  induction l generalizing n with
  | nil => intro h; simp [withIndexFrom] at h
  | cons a l ih =>
    intro h
    simp only [withIndexFrom, List.mem_cons] at h
    rcases h with h | h
    · simp [h]
    · exact List.mem_cons_of_mem _ (ih h)

/-- The sort model permutes its input. -/
theorem sortHot_perm (l : List (ℕ × CameraPose × ℚ)) :
    List.Perm (sortHot l) l := by
  induction l with
  | nil => simp [sortHot]
  | cons y ys ih =>
    exact (insertHot_perm y (sortHot ys)).trans (ih.cons y)

/-- Totality of the lexicographic key order. -/
theorem hotLe_total (a b : ℕ × CameraPose × ℚ) : hotLe a b ∨ hotLe b a := by
  unfold hotLe
  rcases lt_trichotomy a.2.2 b.2.2 with h | h | h
  · exact Or.inl (Or.inl h)
  · rcases Nat.le_total a.1 b.1 with h1 | h1
    · exact Or.inl (Or.inr ⟨h, h1⟩)
    · exact Or.inr (Or.inr ⟨h.symm, h1⟩)
  · exact Or.inr (Or.inl h)

/-- Transitivity of the lexicographic key order. -/
theorem hotLe_trans {a b c : ℕ × CameraPose × ℚ}
    (hab : hotLe a b) (hbc : hotLe b c) : hotLe a c := by
  unfold hotLe at *
  rcases hab with h1 | ⟨h1, h1i⟩ <;> rcases hbc with h2 | ⟨h2, h2i⟩
  · exact Or.inl (h1.trans h2)
  · exact Or.inl (h2 ▸ h1)
  · exact Or.inl (h1 ▸ h2)
  · exact Or.inr ⟨h1.trans h2, h1i.trans h2i⟩

/-- Insertion preserves sortedness. -/
theorem pairwise_insertHot (x : ℕ × CameraPose × ℚ)
    {l : List (ℕ × CameraPose × ℚ)} (h : l.Pairwise hotLe) :
    (insertHot x l).Pairwise hotLe := by
  induction l with
  | nil => simp [insertHot]
  | cons y ys ih =>
    rcases List.pairwise_cons.mp h with ⟨hy, hys⟩
    by_cases hc : hotLe y x
    · simp only [insertHot, if_pos hc]
      refine List.pairwise_cons.mpr ⟨?_, ih hys⟩
      intro a ha
      rcases mem_insertHot ha with rfl | ha
      · exact hc
      · exact hy a ha
    · simp only [insertHot, if_neg hc]
      have hxy : hotLe x y := (hotLe_total x y).resolve_right hc
      refine List.pairwise_cons.mpr ⟨?_, h⟩
      intro a ha
      rcases List.mem_cons.mp ha with rfl | ha
      · exact hxy
      · exact hotLe_trans hxy (hy a ha)

/-- The sort model produces a list sorted by the lexicographic key. -/
theorem sortHot_pairwise (l : List (ℕ × CameraPose × ℚ)) :
    (sortHot l).Pairwise hotLe := by
  induction l with
  | nil => simp [sortHot]
  | cons y ys ih => exact pairwise_insertHot y ih

/-- C5 counterexample: two cameras tied in distance but listed with the
larger id first are returned in arrival order [2, 1], not ascending id
order, because the JavaScript stable sort's comparator only looks at the
distance. -/
theorem updateHotspots_ties_not_by_id :
    ((updateHotspotsSelected ⟨0, ⟨0, 0, 0⟩⟩
        [⟨0, ⟨0, 0, 0⟩⟩, ⟨2, ⟨1, 0, 0⟩⟩, ⟨1, ⟨0, 1, 0⟩⟩] 5).map fun p => p.1.id) =
      [2, 1] ∧
      distSq (⟨0, 0, 0⟩ : Vec3Q) ⟨1, 0, 0⟩ = distSq (⟨0, 0, 0⟩ : Vec3Q) ⟨0, 1, 0⟩ := by
  constructor
  · norm_num [updateHotspotsSelected, updateHotspotsOrdered, neighborCandidates,
      sortHot, insertHot, withIndexFrom, distSq, hotLe]
  · norm_num [distSq]

/-- C5 amended: `updateHotspots` excludes the query camera's id, returns
entries sorted ascending by Euclidean distance with ties kept in the order
the cameras appear in the input list (JS `Array.prototype.sort` is stable),
truncated to the first `maxCount` entries. -/
theorem updateHotspots_selection_spec (cur : CameraPose) (cams : List CameraPose)
    (k : ℕ) :
    (∀ p ∈ updateHotspotsSelected cur cams k, p.1.id ≠ cur.id) ∧
      (updateHotspotsSelected cur cams k).Pairwise (fun a b => a.2 ≤ b.2) ∧
      (updateHotspotsSelected cur cams k).length ≤ k ∧
      List.Perm (updateHotspotsOrdered cur cams) (neighborCandidates cur cams) ∧
      (updateHotspotsOrdered cur cams).Pairwise hotLe := by
  refine ⟨?_, ?_, ?_, sortHot_perm _, sortHot_pairwise _⟩
  · intro p hp
    simp only [updateHotspotsSelected, List.mem_map] at hp
    obtain ⟨e, he, rfl⟩ := hp
    have he2 : e ∈ updateHotspotsOrdered cur cams :=
      (List.take_sublist _ _).subset he
    have he3 : e ∈ neighborCandidates cur cams :=
      (sortHot_perm _).subset he2
    have hsnd : e.2 ∈ (cams.filter fun c => c.id ≠ cur.id).map
        fun c => (c, distSq cur.pos c.pos) :=
      snd_mem_of_mem_withIndexFrom he3
    obtain ⟨c, hc, hce⟩ := List.mem_map.mp hsnd
    have hid : c.id ≠ cur.id := by simpa using List.of_mem_filter hc
    rw [← hce]
    exact hid
  · have hord := sortHot_pairwise (neighborCandidates cur cams)
    have htake : ((updateHotspotsOrdered cur cams).take k).Pairwise hotLe :=
      List.Pairwise.sublist (List.take_sublist _ _) hord
    simp only [updateHotspotsSelected]
    rw [List.pairwise_map]
    refine htake.imp ?_
    intro a b hab
    rcases hab with h | ⟨h, _⟩
    · exact le_of_lt h
    · exact le_of_eq h
  · simp only [updateHotspotsSelected, List.length_map]
    exact (List.length_take_le _ _)

/-- C1 counterexample: with yaw inputs differing by 600 degrees (more than
540), the single plus-or-minus 360 correction in `getShortestRotationPath` leaves a yaw
delta of 240, whose magnitude exceeds 180, so the claim as stated fails. -/
theorem getShortestRotationPath_over540_counterexample :
    (getShortestRotationPath ⟨0, 0⟩ ⟨600, 0⟩).lonDiff = 240 ∧
      ¬ |(getShortestRotationPath ⟨0, 0⟩ ⟨600, 0⟩).lonDiff| ≤ 180 := by
  constructor
  · norm_num [getShortestRotationPath]
  · norm_num [getShortestRotationPath]

/-- C1 amended: whenever the unbounded yaw inputs differ by at most 540
degrees in magnitude, the yaw delta returned by `getShortestRotationPath`
has magnitude at most 180 (one plus-or-minus 360 correction suffices exactly on this
band). -/
theorem getShortestRotationPath_lonDiff_le_180 (s t : ViewAngle)
    (h : |t.lon - s.lon| ≤ 540) :
    |(getShortestRotationPath s t).lonDiff| ≤ 180 := by
  rcases abs_le.mp h with ⟨hlo, hhi⟩
  simp only [getShortestRotationPath]
  split_ifs with h1 h2
  · rw [abs_le]; constructor <;> linarith
  · rw [abs_le]; constructor <;> linarith
  · rw [abs_le]; constructor <;> linarith

/-- C1 witness: concrete instance with yaw inputs 500 degrees apart. -/
theorem getShortestRotationPath_lonDiff_le_180_witness :
    |((⟨500, 0⟩ : ViewAngle).lon - (⟨0, 0⟩ : ViewAngle).lon)| ≤ 540 ∧
      |(getShortestRotationPath ⟨0, 0⟩ ⟨500, 0⟩).lonDiff| ≤ 180 :=
  ⟨by norm_num,
   getShortestRotationPath_lonDiff_le_180 ⟨0, 0⟩ ⟨500, 0⟩ (by norm_num)⟩

/-- C3: `calculateZoomFov` is monotone non-decreasing on non-negative
distances, equals `75 - 25 = 50` at distance `0`, and is constantly
`75 - 8 = 67` for distances at least `maxDistance = 5`. -/
theorem calculateZoomFov_spec :
    (∀ d₁ d₂ : ℚ, 0 ≤ d₁ → d₁ ≤ d₂ → calculateZoomFov d₁ ≤ calculateZoomFov d₂) ∧
      calculateZoomFov 0 = 75 - 25 ∧
      (∀ d : ℚ, 5 ≤ d → calculateZoomFov d = 75 - 8) := by
  refine ⟨?_, by norm_num [calculateZoomFov], ?_⟩
  · intro d₁ d₂ h0 h12
    simp only [calculateZoomFov]
    have hmin : min (d₁ / 5) 1 ≤ min (d₂ / 5) 1 := by
      apply min_le_min _ le_rfl
      linarith
    linarith
  · intro d hd
    have hmin : min (d / 5) 1 = 1 := by
      apply min_eq_right
      linarith
    simp only [calculateZoomFov, hmin]
    norm_num

/-- C3 witness: concrete instances of monotonicity and both bounds. -/
theorem calculateZoomFov_spec_witness :
    calculateZoomFov 1 ≤ calculateZoomFov 2 ∧
      calculateZoomFov 0 = 75 - 25 ∧ calculateZoomFov 7 = 75 - 8 :=
  ⟨calculateZoomFov_spec.1 1 2 (by norm_num) (by norm_num),
   calculateZoomFov_spec.2.1,
   calculateZoomFov_spec.2.2 7 (by norm_num)⟩

/-- C4: for every zoom-in target field of view produced by a hotspot click,
the symmetric zoom-out start value handed to the incoming panorama satisfies
`symmetricFov - normalFov = normalFov - targetFov` with `normalFov = 75`. -/
theorem symmetricZoomOutFov_mirror (distance : Option ℚ) :
    symmetricZoomOutFov (clickZoomFov distance) - 75 = 75 - clickZoomFov distance := by
  simp only [symmetricZoomOutFov]
  ring

/-- Unfolding lemma: a drag sequence processes its head first. -/
theorem runMouseMoves_cons (a : ViewAngle) (d : ℚ × ℚ) (rest : List (ℚ × ℚ)) :
    runMouseMoves a (d :: rest) = runMouseMoves (onMouseMoveUpdate a d.1 d.2) rest := rfl

/-- C9: starting from a pitch inside [-85, 85], the stored pitch stays inside
[-85, 85] after any sequence of pointer-drag updates, because each update
clamps the new pitch before storing it. -/
theorem runMouseMoves_lat_bounded (a : ViewAngle)
    (h : -85 ≤ a.lat ∧ a.lat ≤ 85) (deltas : List (ℚ × ℚ)) :
    -85 ≤ (runMouseMoves a deltas).lat ∧ (runMouseMoves a deltas).lat ≤ 85 := by
  induction deltas generalizing a with
  | nil => exact h
  | cons d rest ih =>
    rw [runMouseMoves_cons]
    apply ih
    refine ⟨le_max_left _ _, max_le (by norm_num) (min_le_left _ _)⟩

/-- C9 witness: concrete drag sequence from pitch 80 staying in band. -/
theorem runMouseMoves_lat_bounded_witness :
    (-85 ≤ (80 : ℚ) ∧ (80 : ℚ) ≤ 85) ∧
      -85 ≤ (runMouseMoves ⟨0, 80⟩ [(3, 100), (0, -2000), (5, 7)]).lat ∧
        (runMouseMoves ⟨0, 80⟩ [(3, 100), (0, -2000), (5, 7)]).lat ≤ 85 :=
  ⟨by norm_num,
   runMouseMoves_lat_bounded ⟨0, 80⟩ (by norm_num) [(3, 100), (0, -2000), (5, 7)]⟩

/-- C10: a hotspot click with no distance and one with distance exactly 0
both fall back to the default distance 3.0 (JS `distance || 3.0` treats 0 as
absent); the resulting zoom amount is the default 14.8 degrees, not the
maximum zoom-in amount of 25 degrees. -/
theorem clickZoomFov_zero_uses_default :
    clickZoomFov none = calculateZoomFov 3 ∧
      clickZoomFov (some 0) = calculateZoomFov 3 ∧
      75 - clickZoomFov (some 0) = 74/5 ∧
      75 - clickZoomFov (some 0) ≠ 25 := by
  refine ⟨rfl, ?_, ?_, ?_⟩
  · norm_num [clickZoomFov, clickDistanceOrDefault]
  · norm_num [clickZoomFov, clickDistanceOrDefault, calculateZoomFov]
  · norm_num [clickZoomFov, clickDistanceOrDefault, calculateZoomFov]

/-- Row-major 4x4 matrix as built by `THREE.Matrix4().set(...)` in
`parseTransformMatrix`: field `nij` is row `i`, column `j` (THREE stores the
elements column-major internally, which only permutes the flat indices). -/
structure Mat4 (α : Type) where
  n11 : α
  n12 : α
  n13 : α
  n14 : α
  n21 : α
  n22 : α
  n23 : α
  n24 : α
  n31 : α
  n32 : α
  n33 : α
  n34 : α
  n41 : α
  n42 : α
  n43 : α
  n44 : α
deriving DecidableEq, Repr

/-- The 16 entries of the matrix, as iterated by `validateTransformMatrix`. -/
def Mat4.entries {α : Type} (m : Mat4 α) : List α :=
  [m.n11, m.n12, m.n13, m.n14, m.n21, m.n22, m.n23, m.n24,
   m.n31, m.n32, m.n33, m.n34, m.n41, m.n42, m.n43, m.n44]

/-- Entry-wise map between matrix carriers. -/
def Mat4.map {α β : Type} (f : α → β) (m : Mat4 α) : Mat4 β :=
  ⟨f m.n11, f m.n12, f m.n13, f m.n14, f m.n21, f m.n22, f m.n23, f m.n24,
   f m.n31, f m.n32, f m.n33, f m.n34, f m.n41, f m.n42, f m.n43, f m.n44⟩

/-- Embedding of `THREE.Matrix4.determinant` (cofactor expansion along the
fourth row, exactly as written in the three.js source). -/
def Mat4.det {α : Type} [CommRing α] (m : Mat4 α) : α :=
  m.n41 * (m.n14 * m.n23 * m.n32 - m.n13 * m.n24 * m.n32 - m.n14 * m.n22 * m.n33
      + m.n12 * m.n24 * m.n33 + m.n13 * m.n22 * m.n34 - m.n12 * m.n23 * m.n34) +
    m.n42 * (m.n11 * m.n23 * m.n34 - m.n11 * m.n24 * m.n33 + m.n14 * m.n21 * m.n33
      - m.n13 * m.n21 * m.n34 + m.n13 * m.n24 * m.n31 - m.n14 * m.n23 * m.n31) +
    m.n43 * (m.n11 * m.n24 * m.n32 - m.n11 * m.n22 * m.n34 - m.n14 * m.n21 * m.n32
      + m.n12 * m.n21 * m.n34 + m.n14 * m.n22 * m.n31 - m.n12 * m.n24 * m.n31) +
    m.n44 * (-(m.n13 * m.n22 * m.n31) - m.n11 * m.n23 * m.n32 + m.n11 * m.n22 * m.n33
      + m.n13 * m.n21 * m.n32 - m.n12 * m.n21 * m.n33 + m.n12 * m.n23 * m.n31)

/-- Embedding of `THREE.Matrix4.multiplyMatrices(a, b)`: the row-major entry
`(i, j)` of `a * b`. -/
def Mat4.mul {α : Type} [CommRing α] (a b : Mat4 α) : Mat4 α :=
  ⟨a.n11 * b.n11 + a.n12 * b.n21 + a.n13 * b.n31 + a.n14 * b.n41,
   a.n11 * b.n12 + a.n12 * b.n22 + a.n13 * b.n32 + a.n14 * b.n42,
   a.n11 * b.n13 + a.n12 * b.n23 + a.n13 * b.n33 + a.n14 * b.n43,
   a.n11 * b.n14 + a.n12 * b.n24 + a.n13 * b.n34 + a.n14 * b.n44,
   a.n21 * b.n11 + a.n22 * b.n21 + a.n23 * b.n31 + a.n24 * b.n41,
   a.n21 * b.n12 + a.n22 * b.n22 + a.n23 * b.n32 + a.n24 * b.n42,
   a.n21 * b.n13 + a.n22 * b.n23 + a.n23 * b.n33 + a.n24 * b.n43,
   a.n21 * b.n14 + a.n22 * b.n24 + a.n23 * b.n34 + a.n24 * b.n44,
   a.n31 * b.n11 + a.n32 * b.n21 + a.n33 * b.n31 + a.n34 * b.n41,
   a.n31 * b.n12 + a.n32 * b.n22 + a.n33 * b.n32 + a.n34 * b.n42,
   a.n31 * b.n13 + a.n32 * b.n23 + a.n33 * b.n33 + a.n34 * b.n43,
   a.n31 * b.n14 + a.n32 * b.n24 + a.n33 * b.n34 + a.n34 * b.n44,
   a.n41 * b.n11 + a.n42 * b.n21 + a.n43 * b.n31 + a.n44 * b.n41,
   a.n41 * b.n12 + a.n42 * b.n22 + a.n43 * b.n32 + a.n44 * b.n42,
   a.n41 * b.n13 + a.n42 * b.n23 + a.n43 * b.n33 + a.n44 * b.n43,
   a.n41 * b.n14 + a.n42 * b.n24 + a.n43 * b.n34 + a.n44 * b.n44⟩

/-- Reads the finite values out of a matrix of JS numbers; meaningful only
when `validateTransformMatrix` has already checked all entries are finite
(the source reaches the determinant check only in that case). -/
def extractFinite (m : Mat4 (Option ℚ)) : Mat4 ℚ :=
  m.map fun e => e.getD 0

/-- Embedding of `validateTransformMatrix` (coordinateUtils): reject if any
of the 16 entries is non-finite (modelled as `none`), then reject if the
magnitude of the determinant is below `1e-10`; otherwise accept. -/
def validateTransformMatrix (m : Mat4 (Option ℚ)) : Bool :=
  if m.entries.any fun e => e.isNone then false
  else if |(extractFinite m).det| < 1 / 10 ^ 10 then false
  else true

/-- Camera record after label parsing, as handed to the validity check in
`parseCamerasXML`: the logical camera id parsed from the label, and the
row-major transform matrix parsed from the 16-number string.  Label text and
image URL do not influence which records survive validation and are
omitted. -/
structure CameraRecord where
  cameraId : ℕ
  transform : Mat4 (Option ℚ)
deriving DecidableEq, Repr

/-- Catalog entry pushed by `parseCamerasXML` for a record that passes
`validateTransformMatrix` (position/rotation conversion and image URL
omitted; they do not affect membership). -/
structure CatalogEntry where
  id : ℕ
  transform : Mat4 ℚ
deriving DecidableEq, Repr

/-- Embedding of the per-record validity filter of `parseCamerasXML`: a
record failing `validateTransformMatrix` is skipped (the forEach callback
returns early), every other record is pushed, in order. -/
def parseCameras (records : List CameraRecord) : List CatalogEntry :=
  records.filterMap fun r =>
    if validateTransformMatrix r.transform then
      some ⟨r.cameraId, extractFinite r.transform⟩
    else none

/-- C6: the pose converter reports a transform invalid exactly when some of
its 16 entries is non-finite or the magnitude of its determinant is below
1e-10, and such a record contributes no catalog entry while all remaining
records are still loaded unchanged. -/
theorem validateTransformMatrix_spec :
    (∀ m : Mat4 (Option ℚ), validateTransformMatrix m = false ↔
      ((∃ e ∈ m.entries, e = none) ∨ |(extractFinite m).det| < 1 / 10 ^ 10)) ∧
      (∀ (pre post : List CameraRecord) (bad : CameraRecord),
        validateTransformMatrix bad.transform = false →
        parseCameras (pre ++ bad :: post) = parseCameras (pre ++ post)) := by
  constructor
  · intro m
    simp only [validateTransformMatrix]
    split_ifs with h1 h2
    · simp only [eq_self_iff_true, true_iff]
      refine Or.inl ?_
      rcases List.any_eq_true.mp h1 with ⟨e, he, hne⟩
      exact ⟨e, he, Option.isNone_iff_eq_none.mp hne⟩
    · simp only [eq_self_iff_true, true_iff]
      exact Or.inr h2
    · constructor
      · intro hf
        exact absurd hf (by simp)
      · rintro (⟨e, he, rfl⟩ | h)
        · exact absurd (List.any_eq_true.mpr ⟨none, he, rfl⟩) h1
        · exact absurd h h2
  · intro pre post bad hbad
    simp only [parseCameras, List.filterMap_append, List.filterMap_cons, hbad]
    simp

/-- Identity transform record (all sixteen JS numbers finite). -/
def idRecord : CameraRecord :=
  ⟨3, ⟨some 1, some 0, some 0, some 0,
       some 0, some 1, some 0, some 0,
       some 0, some 0, some 1, some 0,
       some 0, some 0, some 0, some 1⟩⟩

/-- All-zero transform record: finite entries but determinant 0. -/
def zeroRecord : CameraRecord :=
  ⟨7, ⟨some 0, some 0, some 0, some 0,
       some 0, some 0, some 0, some 0,
       some 0, some 0, some 0, some 0,
       some 0, some 0, some 0, some 0⟩⟩

/-- C6 witness: the zero-determinant record is rejected and dropped from the
catalog while the identity record is still loaded. -/
theorem validateTransformMatrix_spec_witness :
    validateTransformMatrix zeroRecord.transform = false ∧
      parseCameras [idRecord, zeroRecord] = parseCameras [idRecord] := by
  have hbad : validateTransformMatrix zeroRecord.transform = false := by
    norm_num [validateTransformMatrix, zeroRecord, extractFinite, Mat4.map,
      Mat4.det, Mat4.entries]
  exact ⟨hbad, validateTransformMatrix_spec.2 [idRecord] [] zeroRecord hbad⟩

/-- Position vector with real components, for the decompose step whose
column-length normalisation needs square roots. -/
structure Vec3R where
  x : ℝ
  y : ℝ
  z : ℝ

/-- Quaternion in three.js component order (x, y, z, w). -/
structure QuatR where
  x : ℝ
  y : ℝ
  z : ℝ
  w : ℝ

/-- Result record of `convertMetashapeToThreeJS`. -/
structure ConvertedPose where
  position : Vec3R
  rotation : QuatR
  scale : Vec3R

/-- The fixed `METASHAPE_TO_THREEJS_MATRIX` basis change (coordinateUtils):
row-major rows (1,0,0,0), (0,0,1,0), (0,-1,0,0), (0,0,0,1), i.e. a minus 90
degree rotation about the X axis mapping Metashape's Z-up frame to
three.js's Y-up frame. -/
def metashapeToThreeJSMatrixR : Mat4 ℝ :=
  ⟨1, 0, 0, 0,
   0, 0, 1, 0,
   0, -1, 0, 0,
   0, 0, 0, 1⟩

/-- Embedding of `THREE.Quaternion.setFromRotationMatrix` (Shepperd's
branches on the trace), applied to the scale-normalised upper-left 3x3
block. -/
noncomputable def quatFromRotationMatrix
    (m11 m12 m13 m21 m22 m23 m31 m32 m33 : ℝ) : QuatR :=
  let trace := m11 + m22 + m33
  if trace > 0 then
    let s := 0.5 / Real.sqrt (trace + 1)
    ⟨(m32 - m23) * s, (m13 - m31) * s, (m21 - m12) * s, 0.25 / s⟩
  else if m11 > m22 ∧ m11 > m33 then
    let s := 2 * Real.sqrt (1 + m11 - m22 - m33)
    ⟨0.25 * s, (m12 + m21) / s, (m13 + m31) / s, (m32 - m23) / s⟩
  else if m22 > m33 then
    let s := 2 * Real.sqrt (1 + m22 - m11 - m33)
    ⟨(m12 + m21) / s, 0.25 * s, (m23 + m32) / s, (m13 - m31) / s⟩
  else
    let s := 2 * Real.sqrt (1 + m33 - m11 - m22)
    ⟨(m13 + m31) / s, (m23 + m32) / s, 0.25 * s, (m21 - m12) / s⟩

/-- Embedding of `THREE.Matrix4.decompose`: translation from the fourth
column, per-column scale lengths (the first negated when the determinant is
negative), and the quaternion of the scale-normalised rotation block. -/
noncomputable def Mat4.decompose (m : Mat4 ℝ) : ConvertedPose :=
  let sxLen := Real.sqrt (m.n11 ^ 2 + m.n21 ^ 2 + m.n31 ^ 2)
  let sy := Real.sqrt (m.n12 ^ 2 + m.n22 ^ 2 + m.n32 ^ 2)
  let sz := Real.sqrt (m.n13 ^ 2 + m.n23 ^ 2 + m.n33 ^ 2)
  let sx := if m.det < 0 then -sxLen else sxLen
  let invSX := 1 / sx
  let invSY := 1 / sy
  let invSZ := 1 / sz
  { position := ⟨m.n14, m.n24, m.n34⟩
    rotation := quatFromRotationMatrix
      (m.n11 * invSX) (m.n12 * invSY) (m.n13 * invSZ)
      (m.n21 * invSX) (m.n22 * invSY) (m.n23 * invSZ)
      (m.n31 * invSX) (m.n32 * invSY) (m.n33 * invSZ)
    scale := ⟨sx, sy, sz⟩ }

/-- Embedding of `convertMetashapeToThreeJS` (coordinateUtils): left-multiply
the source transform by the fixed basis change and decompose the product.
(The source also decomposes the original matrix, but only for a debug
warning; that has no effect on the returned pose.) -/
noncomputable def convertMetashapeToThreeJS (m : Mat4 ℝ) : ConvertedPose :=
  (Mat4.mul metashapeToThreeJSMatrixR m).decompose

/-- The identity source transform over the reals. -/
def idMatR : Mat4 ℝ :=
  ⟨1, 0, 0, 0,
   0, 1, 0, 0,
   0, 0, 1, 0,
   0, 0, 0, 1⟩

/-- Evaluation of the converter on the identity transform: the basis change
itself survives as the pose, so the position is the origin and the rotation
is the minus 90 degree X-axis quaternion. -/
theorem convertIdentityEval :
    (convertMetashapeToThreeJS idMatR).position = ⟨0, 0, 0⟩ ∧
      (convertMetashapeToThreeJS idMatR).rotation =
        ⟨-(Real.sqrt 2 / 2), 0, 0, Real.sqrt 2 / 2⟩ := by
  have h2 : (0 : ℝ) < Real.sqrt 2 := Real.sqrt_pos.mpr (by norm_num)
  have hs : Real.sqrt 2 * Real.sqrt 2 = 2 := Real.mul_self_sqrt (by norm_num)
  constructor
  · simp only [convertMetashapeToThreeJS, Mat4.decompose, Mat4.mul,
      metashapeToThreeJSMatrixR, idMatR]
    norm_num
  · simp only [convertMetashapeToThreeJS, Mat4.decompose, Mat4.mul, Mat4.det,
      metashapeToThreeJSMatrixR, idMatR, quatFromRotationMatrix]
    norm_num [Real.sqrt_one, QuatR.mk.injEq]
    constructor
    · field_simp
      nlinarith [hs]
    · field_simp
      nlinarith [hs]

/-- C2 counterexample: the converted rotation for the identity source
transform is not the identity quaternion, because the converter first
left-multiplies the fixed Metashape-to-three.js basis change into the
matrix and re-decomposes. -/
theorem convert_identity_rotation_ne_identity :
    (convertMetashapeToThreeJS idMatR).rotation ≠ ⟨0, 0, 0, 1⟩ := by
  rw [convertIdentityEval.2]
  intro h
  have hx : -(Real.sqrt 2 / 2) = 0 := congrArg QuatR.x h
  have h2 : (0 : ℝ) < Real.sqrt 2 := Real.sqrt_pos.mpr (by norm_num)
  nlinarith [h2, hx]

/-- C2 amended: the identity source transform passes validation and converts
to position at the origin, but its orientation is the quaternion of the
fixed basis change (a minus 90 degree rotation about X, components
(-sqrt 2 / 2, 0, 0, sqrt 2 / 2)), not the identity quaternion. -/
theorem convert_identity_pose :
    validateTransformMatrix idRecord.transform = true ∧
      (convertMetashapeToThreeJS idMatR).position = ⟨0, 0, 0⟩ ∧
      (convertMetashapeToThreeJS idMatR).rotation =
        ⟨-(Real.sqrt 2 / 2), 0, 0, Real.sqrt 2 / 2⟩ :=
  ⟨by norm_num [validateTransformMatrix, idRecord, extractFinite, Mat4.map,
      Mat4.det, Mat4.entries],
   convertIdentityEval.1, convertIdentityEval.2⟩

/-- Embedding of JavaScript `Math.atan2(y, x)` on idealised reals. -/
noncomputable def atan2 (y x : ℝ) : ℝ :=
  if 0 < x then Real.arctan (y / x)
  else if x < 0 then
    (if 0 ≤ y then Real.arctan (y / x) + Real.pi else Real.arctan (y / x) - Real.pi)
  else
    (if 0 < y then Real.pi / 2 else if y < 0 then -(Real.pi / 2) else 0)

/-- Relative position `targetCamera.position - currentCamera.position`
computed in `createHotspot3D`. -/
def relativePosition (cur tgt : Vec3Q) : Vec3Q :=
  ⟨tgt.x - cur.x, tgt.y - cur.y, tgt.z - cur.z⟩

/-- Axis remap in `createHotspot3D`: X mirrored, Z becomes up, Y becomes
minus Z. -/
def mappedPosition (r : Vec3Q) : Vec3Q :=
  ⟨-r.x, r.z, -r.y⟩

/-- The `makeRotationY(-Math.PI / 2)` application in `createHotspot3D`,
idealising `cos(-pi/2) = 0` and `sin(-pi/2) = -1`:
`(x, y, z) -> (-z, y, x)`. -/
def rotateYNeg90 (v : Vec3Q) : Vec3Q :=
  ⟨-v.z, v.y, v.x⟩

/-- The hotspot group position set by `createHotspot3D` and read back as
`ballPosition` in `handleClick`. -/
def ballPosition (cur tgt : Vec3Q) : Vec3Q :=
  rotateYNeg90 (mappedPosition (relativePosition cur tgt))

/-- Embedding of `targetLon` in `PanoramaHotspotManager.handleClick`:
`atan2(ballPosition.z, ballPosition.x) * 180 / PI`. -/
noncomputable def clickTargetLon (cur tgt : Vec3Q) : ℝ :=
  atan2 ((ballPosition cur tgt).z : ℝ) ((ballPosition cur tgt).x : ℝ) * 180 / Real.pi

/-- Embedding of the in-plane distance in `handleClick`:
`sqrt(ballPosition.x^2 + ballPosition.z^2)`. -/
noncomputable def clickHorizontalDistance (cur tgt : Vec3Q) : ℝ :=
  Real.sqrt (((ballPosition cur tgt).x : ℝ) ^ 2 + ((ballPosition cur tgt).z : ℝ) ^ 2)

/-- Embedding of `targetLat` in `handleClick`:
`atan2(ballPosition.y, horizontalDistance) * 180 / PI`. -/
noncomputable def clickTargetLat (cur tgt : Vec3Q) : ℝ :=
  atan2 ((ballPosition cur tgt).y : ℝ) (clickHorizontalDistance cur tgt) * 180 / Real.pi

/-- The hotspot's stored distance, computed in `updateHotspots` as
`currentCamera.position.distanceTo(cam.position)` (before any axis
remapping). -/
noncomputable def hotspotDistance (cur tgt : Vec3Q) : ℝ :=
  Real.sqrt ((distSq cur tgt : ℝ))

/-- C7: the panorama projection computes yaw as atan2 of the local Z and X
components and pitch as atan2 of the local Y component against the
horizontal distance sqrt(localX^2 + localZ^2), while the hotspot's stored
distance is the full 3D Euclidean norm of the raw relative vector; in the
scenario current (0,0,0), target (3,0,4) that distance is 5. -/
theorem panorama_projection_spec (cur tgt : Vec3Q) :
    hotspotDistance cur tgt =
      Real.sqrt (((tgt.x - cur.x : ℚ) : ℝ) ^ 2 + ((tgt.y - cur.y : ℚ) : ℝ) ^ 2 +
        ((tgt.z - cur.z : ℚ) : ℝ) ^ 2) ∧
      clickTargetLon cur tgt =
        atan2 ((ballPosition cur tgt).z : ℝ) ((ballPosition cur tgt).x : ℝ) * 180 / Real.pi ∧
      clickTargetLat cur tgt =
        atan2 ((ballPosition cur tgt).y : ℝ)
          (Real.sqrt (((ballPosition cur tgt).x : ℝ) ^ 2 + ((ballPosition cur tgt).z : ℝ) ^ 2)) *
          180 / Real.pi ∧
      hotspotDistance ⟨0, 0, 0⟩ ⟨3, 0, 4⟩ = 5 := by
  refine ⟨?_, rfl, rfl, ?_⟩
  · unfold hotspotDistance
    congr 1
    push_cast [distSq]
    ring
  · unfold hotspotDistance
    have h25 : distSq ⟨0, 0, 0⟩ ⟨3, 0, 4⟩ = 25 := by norm_num [distSq]
    rw [h25]
    rw [show ((25 : ℚ) : ℝ) = 5 ^ 2 by norm_num]
    exact Real.sqrt_sq (by norm_num)

/-- Progress of the zoom-in animation at a given elapsed time in
milliseconds: `min(elapsed / duration, 1)` with `duration = 2000`. -/
def zoomProgress (elapsed : ℚ) : ℚ :=
  min (elapsed / 2000) 1

/-- Overlay opacity written by `animateZoomIn` each frame:
`progress <= 0.5 ? 1 - progress : 0.5`. -/
def zoomOpacity (p : ℚ) : ℚ :=
  if p ≤ 1/2 then 1 - p else 1/2

/-- Embedding of the frame loop of `animateZoomIn`: each frame computes the
progress from its elapsed time, writes the opacity, fires the switch
callback when progress has reached one half and the `hasTriggeredSwitch`
flag is still clear, and stops after the first frame whose progress reached
1 (where the completion fallback fires only if the flag is still clear).
Returns, per processed frame, the written opacity and whether the callback
fired during that frame. -/
def animateZoomInTrace (triggered : Bool) : List ℚ → List (ℚ × Bool)
  | [] => []
  | e :: rest =>
    let p := zoomProgress e
    let fire1 := decide (1/2 ≤ p) && !triggered
    let t1 := triggered || fire1
    if p < 1 then (zoomOpacity p, fire1) :: animateZoomInTrace t1 rest
    else [(zoomOpacity p, fire1 || !t1)]

/-- Progress completes exactly when 2000 ms have elapsed. -/
theorem zoomProgress_lt_one_iff (e : ℚ) : zoomProgress e < 1 ↔ e < 2000 := by
  unfold zoomProgress
  rw [min_lt_iff]
  constructor
  · rintro (h | h) <;> linarith
  · intro h
    left
    linarith

/-- Progress reaches one half exactly when 1000 ms have elapsed. -/
theorem half_le_zoomProgress_iff (e : ℚ) : 1/2 ≤ zoomProgress e ↔ 1000 ≤ e := by
  unfold zoomProgress
  rw [le_min_iff]
  constructor
  · rintro ⟨h, _⟩
    linarith
  · intro h
    exact ⟨by linarith, by norm_num⟩

/-- Once the switch flag is set, no later frame fires the callback. -/
theorem animateZoomInTrace_triggered_no_fire (frames : List ℚ) :
    (animateZoomInTrace true frames).filter (fun fr => fr.2) = [] := by
  induction frames with
  | nil => simp [animateZoomInTrace]
  | cons e rest ih =>
    simp only [animateZoomInTrace, Bool.and_false, Bool.not_true, Bool.or_false]
    split_ifs with h
    · simpa using ih
    · simp

/-- Every processed frame writes the opacity determined by its progress:
1 - progress while progress is at most one half, and exactly one half for
all later frames. -/
theorem animateZoomInTrace_opacity (triggered : Bool) (frames : List ℚ) :
    (animateZoomInTrace triggered frames).map Prod.fst =
      (frames.take (animateZoomInTrace triggered frames).length).map
        fun e => zoomOpacity (zoomProgress e) := by
  induction frames generalizing triggered with
  | nil => simp [animateZoomInTrace]
  | cons e rest ih =>
    simp only [animateZoomInTrace]
    split_ifs with h
    · simp only [List.map_cons, List.length_cons, List.take_succ_cons]
      rw [ih]
    · simp

/-- C8: over any run of the zoom-in animation that reaches completion, the
switch callback fires exactly once, at the first frame whose progress
reaches one half (and not a second time at completion), and each frame's
opacity is 1 - progress while progress is at most one half and exactly one
half afterwards. -/
theorem animateZoomIn_spec (frames : List ℚ)
    (hc : ∃ e ∈ frames, 2000 ≤ e) :
    ((animateZoomInTrace false frames).filter (fun fr => fr.2)).length = 1 ∧
      (animateZoomInTrace false frames).findIdx (fun fr => fr.2) =
        frames.findIdx (fun e => decide (1000 ≤ e)) ∧
      (animateZoomInTrace false frames).map Prod.fst =
        (frames.take (animateZoomInTrace false frames).length).map
          (fun e => zoomOpacity (zoomProgress e)) := by
  refine ⟨?_, ?_, animateZoomInTrace_opacity false frames⟩
  · induction frames with
    | nil => simp at hc
    | cons e rest ih =>
      simp only [animateZoomInTrace, Bool.not_false, Bool.and_true, Bool.false_or]
      by_cases h1 : zoomProgress e < 1
      · rw [if_pos h1]
        by_cases h2 : (1:ℚ)/2 ≤ zoomProgress e
        · simp only [decide_eq_true h2, List.filter_cons, List.length_cons]
          simpa using congrArg List.length (animateZoomInTrace_triggered_no_fire rest)
        · have he : e < 1000 := by
            by_contra hge
            exact h2 ((half_le_zoomProgress_iff e).mpr (by linarith))
          have hrest : ∃ x ∈ rest, 2000 ≤ x := by
            rcases hc with ⟨x, hx, hx2⟩
            rcases List.mem_cons.mp hx with rfl | hx
            · linarith [(zoomProgress_lt_one_iff x).mp h1]
            · exact ⟨x, hx, hx2⟩
          simp only [decide_eq_false h2, List.filter_cons]
          simpa using ih hrest
      · rw [if_neg h1]
        have h2 : (1:ℚ)/2 ≤ zoomProgress e := by
          have := (zoomProgress_lt_one_iff e).not
          unfold zoomProgress at *
          rcases le_or_lt 1 (min (e / 2000) 1) with hge | hlt
          · linarith
          · exact absurd hlt h1
        simp [decide_eq_true h2]
  · induction frames with
    | nil => simp at hc
    | cons e rest ih =>
      simp only [animateZoomInTrace, Bool.not_false, Bool.and_true, Bool.false_or]
      by_cases h1 : zoomProgress e < 1
      · rw [if_pos h1]
        by_cases h2 : (1:ℚ)/2 ≤ zoomProgress e
        · have he : (1000:ℚ) ≤ e := (half_le_zoomProgress_iff e).mp h2
          have h2i : (2:ℚ)⁻¹ ≤ zoomProgress e := by
            rw [← one_div]
            exact h2
          simp [List.findIdx_cons, decide_eq_true h2, decide_eq_true h2i,
            decide_eq_true he]
        · have he : ¬ (1000:ℚ) ≤ e := fun hge =>
            h2 ((half_le_zoomProgress_iff e).mpr hge)
          have hrest : ∃ x ∈ rest, 2000 ≤ x := by
            rcases hc with ⟨x, hx, hx2⟩
            rcases List.mem_cons.mp hx with rfl | hx
            · linarith [(zoomProgress_lt_one_iff x).mp h1]
            · exact ⟨x, hx, hx2⟩
          simp only [List.findIdx_cons, decide_eq_false h2, decide_eq_false he]
          simp only [cond_false]
          rw [ih hrest]
      · rw [if_neg h1]
        have he : (2000:ℚ) ≤ e := by
          by_contra hlt
          exact h1 ((zoomProgress_lt_one_iff e).mpr (by linarith))
        have h2 : (1:ℚ)/2 ≤ zoomProgress e := (half_le_zoomProgress_iff e).mpr (by linarith)
        have h2i : (2:ℚ)⁻¹ ≤ zoomProgress e := by
          rw [← one_div]
          exact h2
        have he1000 : (1000:ℚ) ≤ e := by linarith
        simp [List.findIdx_cons, decide_eq_true h2, decide_eq_true h2i,
          decide_eq_true he1000]

/-- C8 witness: a concrete five-frame run completing at 2200 ms fires the
callback exactly once, at the third frame (the first with elapsed at least
1000 ms). -/
theorem animateZoomIn_spec_witness :
    (∃ e ∈ ([400, 900, 1000, 1500, 2200] : List ℚ), 2000 ≤ e) ∧
      ((animateZoomInTrace false [400, 900, 1000, 1500, 2200]).filter
          (fun fr => fr.2)).length = 1 ∧
        (animateZoomInTrace false [400, 900, 1000, 1500, 2200]).findIdx
            (fun fr => fr.2) =
          ([400, 900, 1000, 1500, 2200] : List ℚ).findIdx
            (fun e => decide (1000 ≤ e)) ∧
        (animateZoomInTrace false [400, 900, 1000, 1500, 2200]).map Prod.fst =
          (([400, 900, 1000, 1500, 2200] : List ℚ).take
              (animateZoomInTrace false [400, 900, 1000, 1500, 2200]).length).map
            (fun e => zoomOpacity (zoomProgress e)) :=
  ⟨⟨2200, by simp, by norm_num⟩,
   animateZoomIn_spec [400, 900, 1000, 1500, 2200] ⟨2200, by simp, by norm_num⟩⟩
